import Mathlib

/-!
Verification of the dense-matrix / feed-forward-network core (nn.js).

The JavaScript source is shallowly embedded over the reals: a JS
Float64Array buffer becomes a `List ℝ`, row-major, and each loop becomes a
map / fold over the index range the loop traverses.  JS numbers are
modelled as real numbers, so float rounding and NaN are outside the model:
an out-of-range typed-array read, which yields NaN through `undefined` in
JS, is modelled by the `getD` default 0, and no theorem below depends on
the value produced by an out-of-range read.
-/

noncomputable section

namespace NN

/-- Dense row-major matrix: `rows`, `cols` and the flat buffer, exactly the
fields of the JS `Matrix` class. -/
structure Matrix where
  rows : Nat
  cols : Nat
  data : List ℝ

/-- The default matrix used where JS would read `undefined` from an array
of matrices (which would crash at the next method call; no theorem
exercises that case). -/
def mEmpty : Matrix := ⟨0, 0, []⟩

namespace Matrix

/-- `get(i, j)`: read of `data[i * cols + j]`. -/
def get (m : Matrix) (i j : Nat) : ℝ := m.data.getD (i * m.cols + j) 0

/-- Builder for the nested write loops of the source: a fresh
`rows*cols` buffer whose position `i*cols + j` holds `f i j`. -/
def ofFn (r c : Nat) (f : Nat → Nat → ℝ) : Matrix :=
  ⟨r, c, (List.range (r * c)).map (fun n => f (n / c) (n % c))⟩

/-- `Matrix.zeros`: `new Matrix(rows, cols)` leaves the fresh
Float64Array at its default, all zeros. -/
def zeros (r c : Nat) : Matrix := ⟨r, c, List.replicate (r * c) 0⟩

/-- The `new Matrix(rows, cols, data)` constructor with an ordinary JS
array: the buffer is allocated with `rows*cols` zeros, then `data[i]` is
copied in for `i < data.length`; writes past the buffer end are silently
dropped by the typed array, missing positions keep their zero.  Hence:
truncate to `rows*cols`, then zero-pad up to `rows*cols`. -/
def ofArray (r c : Nat) (data : List ℝ) : Matrix :=
  ⟨r, c, data.take (r * c) ++ List.replicate (r * c - data.length) 0⟩

/-- `Matrix.fromArray(arr)`: column vector from a flat array. -/
def fromArray (arr : List ℝ) : Matrix := ofArray arr.length 1 arr

/-- `add`: elementwise sum over the receiver's index range; the source
performs no shape check of any kind. -/
def add (a b : Matrix) : Matrix :=
  ⟨a.rows, a.cols,
    (List.range (a.rows * a.cols)).map (fun n => a.data.getD n 0 + b.data.getD n 0)⟩

/-- `sub`: elementwise difference, no shape check. -/
def sub (a b : Matrix) : Matrix :=
  ⟨a.rows, a.cols,
    (List.range (a.rows * a.cols)).map (fun n => a.data.getD n 0 - b.data.getD n 0)⟩

/-- `mul`: matrix product; the inner loop accumulates
`this.data[i*this.cols+k] * other.data[k*other.cols+j]` for
`k < this.cols`, which is `get i k * get k j`; no shape check. -/
def mul (a b : Matrix) : Matrix :=
  ofFn a.rows b.cols (fun i j => ∑ k in Finset.range a.cols, a.get i k * b.get k j)

/-- `hadamard`: elementwise product, no shape check. -/
def hadamard (a b : Matrix) : Matrix :=
  ⟨a.rows, a.cols,
    (List.range (a.rows * a.cols)).map (fun n => a.data.getD n 0 * b.data.getD n 0)⟩

/-- `scale(s)`: elementwise scalar multiple. -/
def scale (a : Matrix) (s : ℝ) : Matrix :=
  ⟨a.rows, a.cols, (List.range (a.rows * a.cols)).map (fun n => a.data.getD n 0 * s)⟩

/-- `transpose`: `out.data[j*this.rows+i] = this.data[i*this.cols+j]`. -/
def transpose (a : Matrix) : Matrix := ofFn a.cols a.rows (fun i j => a.get j i)

/-- `map(fn)`: positional application of a scalar function (the source
also passes the flat index, which every registered activation ignores). -/
def map (a : Matrix) (f : ℝ → ℝ) : Matrix :=
  ⟨a.rows, a.cols, (List.range (a.rows * a.cols)).map (fun n => f (a.data.getD n 0))⟩

/-- `addVec(vec)`: broadcast a column vector over the columns of the
receiver; `out[i][j] = this[i][j] + vec.data[i]`; no shape check. -/
def addVec (a v : Matrix) : Matrix :=
  ofFn a.rows a.cols (fun i j => a.get i j + v.data.getD i 0)

/-- `clone()`: fresh backing storage with the same fields; in the purely
functional model this is the identity copy. -/
def clone (a : Matrix) : Matrix := ⟨a.rows, a.cols, a.data⟩

/-- The serialized record `{rows, cols, data}`. -/
structure Rec where
  rows : Nat
  cols : Nat
  data : List ℝ

/-- `toJSON()`. -/
def toJSON (m : Matrix) : Rec := ⟨m.rows, m.cols, m.data⟩

/-- `fromJSON(json)`: `new Matrix(json.rows, json.cols, json.data)`,
which truncates or zero-pads the supplied data to `rows*cols` (see
`ofArray`); there is no validation and no failure path. -/
def fromJSON (j : Rec) : Matrix := ofArray j.rows j.cols j.data

/-- Buffer-length invariant maintained by every constructor and
operation of the source (`buffer.length == rows*cols`). -/
def WF (m : Matrix) : Prop := m.data.length = m.rows * m.cols

instance : DecidablePred WF := fun m => by unfold WF; infer_instance

end Matrix

/-! ### Index arithmetic for the row-major layout -/

theorem flatIndex_lt {i j r c : Nat} (hi : i < r) (hj : j < c) :
    i * c + j < r * c := by
  have hstep : i * c + j < (i + 1) * c := by
    rw [Nat.succ_mul]
    omega
  have hmono : (i + 1) * c ≤ r * c := Nat.mul_le_mul_right c hi
  omega

theorem getD_range_map {α : Type _} {N n : Nat} (f : Nat → α) (d : α) (h : n < N) :
    (((List.range N).map f).getD n d) = f n := by
  simp [List.getD_eq_getElem?_getD, List.getElem?_map, List.getElem?_range, h]

theorem Matrix.ofFn_rows (r c : Nat) (f : Nat → Nat → ℝ) : (Matrix.ofFn r c f).rows = r := rfl

theorem Matrix.ofFn_cols (r c : Nat) (f : Nat → Nat → ℝ) : (Matrix.ofFn r c f).cols = c := rfl

theorem Matrix.ofFn_get (r c : Nat) (f : Nat → Nat → ℝ) {i j : Nat}
    (hi : i < r) (hj : j < c) : (Matrix.ofFn r c f).get i j = f i j := by
  have hc : 0 < c := Nat.lt_of_le_of_lt (Nat.zero_le j) hj
  unfold Matrix.ofFn Matrix.get
  simp only
  rw [getD_range_map _ _ (flatIndex_lt hi hj)]
  have hidx : i * c + j = j + c * i := by ring
  rw [hidx, Nat.add_mul_div_left j i hc, Nat.add_mul_mod_self_left,
    Nat.div_eq_of_lt hj, Nat.mod_eq_of_lt hj, Nat.zero_add]

/-! ### Spec-side error model

The error kinds named by the spec (§7).  The source code contains no
validation and no throw sites, so these appear only in the clearly
marked spec-side definitions used to compare spec and code. -/

inductive OpError where
  | AddSubShapeMismatch
  | MulShapeMismatch
  | HadamardShapeMismatch
  | BroadcastShapeMismatch
  | DeserializationError
  | InvalidConfig
deriving DecidableEq

/-- Follows the words of the spec (§4.1, §7): elementwise add requires
identical shape, else AddSubShapeMismatch. -/
def specAdd (a b : Matrix) : Except OpError Matrix :=
  if a.rows = b.rows ∧ a.cols = b.cols then .ok (a.add b)
  else .error .AddSubShapeMismatch

/-- Follows the words of the spec: sub requires identical shape. -/
def specSub (a b : Matrix) : Except OpError Matrix :=
  if a.rows = b.rows ∧ a.cols = b.cols then .ok (a.sub b)
  else .error .AddSubShapeMismatch

/-- Follows the words of the spec: mul requires `this.cols == other.rows`,
else MulShapeMismatch. -/
def specMul (a b : Matrix) : Except OpError Matrix :=
  if a.cols = b.rows then .ok (a.mul b) else .error .MulShapeMismatch

/-- Follows the words of the spec: hadamard requires identical shape,
else HadamardShapeMismatch. -/
def specHadamard (a b : Matrix) : Except OpError Matrix :=
  if a.rows = b.rows ∧ a.cols = b.cols then .ok (a.hadamard b)
  else .error .HadamardShapeMismatch

/-- Follows the words of the spec: the column broadcast requires
`vec.rows == this.rows`, else BroadcastShapeMismatch. -/
def specAddVec (a v : Matrix) : Except OpError Matrix :=
  if v.rows = a.rows then .ok (a.addVec v) else .error .BroadcastShapeMismatch

/-- Follows the words of the spec (§7): a matrix record with
`data.length != rows*cols` fails with DeserializationError. -/
def fromJSONChecked (j : Matrix.Rec) : Except OpError Matrix :=
  if j.data.length = j.rows * j.cols then .ok (Matrix.fromJSON j)
  else .error .DeserializationError

/-! ### Activation registry -/

/-- A `{forward, derivative}` pair from the registry. -/
structure ActPair where
  fn : ℝ → ℝ
  dfn : ℝ → ℝ

/-- `relu`: forward `max(0, x)`; derivative 1 for `x > 0`, else 0 (0 at
exactly 0, the deliberate policy). -/
def reluAct : ActPair := ⟨fun x => max 0 x, fun x => if x > 0 then 1 else 0⟩

/-- `sigmoid`: the input is clamped to `[-500, 500]` before
exponentiating; the derivative recomputes the clamped forward value `s`
and returns `s * (1 - s)`. -/
def sigmoidAct : ActPair :=
  ⟨fun x => 1 / (1 + Real.exp (-(min (max x (-500)) 500))),
   fun x =>
     (1 / (1 + Real.exp (-(min (max x (-500)) 500)))) *
       (1 - 1 / (1 + Real.exp (-(min (max x (-500)) 500))))⟩

/-- `tanh`: hyperbolic tangent and `1 - tanh(x)^2`. -/
def tanhAct : ActPair := ⟨fun x => Real.tanh x, fun x => 1 - Real.tanh x ^ 2⟩

/-- The registry object keyed by name. -/
def activations (name : String) : Option ActPair :=
  if name = "relu" then some reluAct
  else if name = "sigmoid" then some sigmoidAct
  else if name = "tanh" then some tanhAct
  else none

/-- `activations[name]` lookup.  In JS an unregistered name yields
`undefined` and crashes at the first call through it; the embedding
totalizes that case with an inert pair, and no theorem depends on it. -/
def lookupAct (name : String) : ActPair :=
  (activations name).getD ⟨fun x => x, fun x => x⟩

/-! ### Softmax and loss -/

/-- One step of the running-maximum loop:
`if (v > maxVal) maxVal = v`. -/
def maxStep (m x : ℝ) : ℝ := if x > m then x else m

/-- The entries `vec.data[i]` for `i < vec.rows`, the range every softmax
loop traverses. -/
def colVals (vec : Matrix) : List ℝ := (List.range vec.rows).map (fun i => vec.data.getD i 0)

/-- The running maximum starting from `-Infinity`: on a nonempty buffer
the first iteration always replaces the start value, so the result is the
fold of `maxStep` over the tail from the head.  The empty case (never
reached from a nonempty column vector) is modelled as 0. -/
def listMax : List ℝ → ℝ
  | [] => 0
  | v :: vs => vs.foldl maxStep v

/-- `softmax(vec)`: subtract the running maximum, exponentiate, then
divide by the accumulated sum of the exponentials. -/
def softmax (vec : Matrix) : Matrix :=
  let vals := colVals vec
  let maxVal := listMax vals
  let exps := vals.map (fun x => Real.exp (x - maxVal))
  let s := exps.foldl (fun a e => a + e) 0
  ⟨vec.rows, 1, exps.map (fun e => e / s)⟩

/-- `crossEntropyLoss(predicted, target)`: accumulate
`-target[i] * ln(max(predicted[i], 1e-15))` over `i < target.rows` with
`target[i] > 0`. -/
def crossEntropyLoss (predicted target : Matrix) : ℝ :=
  ((List.range target.rows).map (fun i =>
    if target.data.getD i 0 > 0 then
      -(target.data.getD i 0 * Real.log (max (predicted.data.getD i 0) 1e-15))
    else 0)).sum

/-! ### Network -/

/-- `xavierInit(rows, cols)`: each entry is
`(Math.random()*2 - 1) * sqrt(6/(rows+cols))`; the unseeded random
source is abstracted as a stream `rand` indexed by buffer position. -/
def xavierInit (rand : Nat → ℝ) (rows cols : Nat) : Matrix :=
  ⟨rows, cols,
    (List.range (rows * cols)).map
      (fun n => (rand n * 2 - 1) * Real.sqrt (6 / ((rows : ℝ) + (cols : ℝ))))⟩

/-- The `Network` fields. -/
structure Network where
  layerSizes : List Nat
  hiddenActivation : String
  weights : List Matrix
  biases : List Matrix

/-- The `Network` constructor: for each transition `i` push
`xavierInit(layerSizes[i+1], layerSizes[i])` and
`Matrix.zeros(layerSizes[i+1], 1)`; `rand i` is the random stream
consumed by the i-th `xavierInit` call. -/
def mkNetwork (layerSizes : List Nat) (hiddenActivation : String)
    (rand : Nat → Nat → ℝ) : Network :=
  ⟨layerSizes, hiddenActivation,
   (List.range (layerSizes.length - 1)).map
     (fun i => xavierInit (rand i) (layerSizes.getD (i + 1) 0) (layerSizes.getD i 0)),
   (List.range (layerSizes.length - 1)).map
     (fun i => Matrix.zeros (layerSizes.getD (i + 1) 0) 1)⟩

/-- The forward trace `{zs, as}` (the source reuses the JS names). -/
structure Trace where
  zs : List Matrix
  as : List Matrix

/-- The forward loop over the (weight, bias) layers: each layer computes
`z = W.mul(a).add(b)`; every layer but the last applies the hidden
activation elementwise, the last applies softmax. -/
def forwardGo (fn : ℝ → ℝ) : List (Matrix × Matrix) → Matrix → List Matrix × List Matrix
  | [], _ => ([], [])
  | [(w, b)], a =>
      let z := (w.mul a).add b
      ([z], [softmax z])
  | (w, b) :: wb :: rest, a =>
      let z := (w.mul a).add b
      let a2 := z.map fn
      let p := forwardGo fn (wb :: rest) a2
      (z :: p.1, a2 :: p.2)

/-- `forward(input)`: the full trace, with `as[0] = input`. -/
def Network.forward (net : Network) (input : Matrix) : Trace :=
  let act := lookupAct net.hiddenActivation
  let p := forwardGo act.fn (net.weights.zip net.biases) input
  ⟨p.1, input :: p.2⟩

/-- `predict(input)`: the last activation of the forward trace. -/
def Network.predict (net : Network) (input : Matrix) : Matrix :=
  (net.forward input).as.getLastD input

/-- The delta propagation step of the backward loop at layer `i`:
`weights[i].transpose().mul(delta).hadamard(zs[i-1].map(act.dfn))`. -/
def stepDelta (dfn : ℝ → ℝ) (ws zs : List Matrix) (i : Nat) (delta : Matrix) : Matrix :=
  (((ws.getD i mEmpty).transpose).mul delta).hadamard ((zs.getD (i - 1) mEmpty).map dfn)

/-- The backward loop `for (i = L-1; i >= 0; i--)` with fuel `k` (the
current layer index): produces the pairs `(dw[i], db[i])` for
`i = 0 .. k` in index order. -/
def backLoop (dfn : ℝ → ℝ) (ws zs as : List Matrix) : Nat → Matrix → List (Matrix × Matrix)
  | 0, delta => [(delta.mul ((as.getD 0 mEmpty).transpose), delta.clone)]
  | k + 1, delta =>
      backLoop dfn ws zs as k (stepDelta dfn ws zs (k + 1) delta) ++
        [(delta.mul ((as.getD (k + 1) mEmpty).transpose), delta.clone)]

/-- `backward(input, target)`: rerun forward, set the output delta to
`as[L].sub(target)`, then run the loop; returns `(dw, db, loss)`.  When
`L = 0` the loop body never runs and the gradient lists are empty. -/
def Network.backward (net : Network) (input target : Matrix) :
    List Matrix × List Matrix × ℝ :=
  let t := net.forward input
  let act := lookupAct net.hiddenActivation
  let L := net.weights.length
  let loss := crossEntropyLoss (t.as.getD L mEmpty) target
  if L = 0 then ([], [], loss)
  else
    let pairs := backLoop act.dfn net.weights t.zs t.as (L - 1) ((t.as.getD L mEmpty).sub target)
    (pairs.map Prod.fst, pairs.map Prod.snd, loss)

/-- The delta recurrence as the spec states it: starting from a given
delta at layer index `i`, descend `s` layers, applying the propagation
step once per layer left. -/
def deltaDown (dfn : ℝ → ℝ) (ws zs : List Matrix) (i : Nat) (delta : Matrix) : Nat → Matrix
  | 0 => delta
  | s + 1 => deltaDown dfn ws zs (i - 1) (stepDelta dfn ws zs i delta) s

/-- The spec delta at layer `i` (§4.5): start from
`delta_top = a_L - target` at index `L-1` and propagate down to `i`. -/
def Network.specDelta (net : Network) (input target : Matrix) (i : Nat) : Matrix :=
  let t := net.forward input
  let act := lookupAct net.hiddenActivation
  let L := net.weights.length
  deltaDown act.dfn net.weights t.zs (L - 1) ((t.as.getD L mEmpty).sub target) (L - 1 - i)

/-! ### Training loop -/

/-- The argmax scan of the accuracy check: first-encountered maximum
wins (strict `>` against the current best).  The source runs both the
prediction scan and the target scan to the bound `pred.rows`. -/
def argmaxOver (n : Nat) (m : Matrix) : Nat :=
  (List.range n).foldl
    (fun best i => if m.data.getD i 0 > m.data.getD best 0 then i else best) 0

/-- A labeled sample `{input, target}`. -/
structure Sample where
  input : Matrix
  target : Matrix

/-- Default for an out-of-range sample read (never reached: batch
indices come from `List.range samples.length`). -/
def sEmpty : Sample := ⟨mEmpty, mEmpty⟩

/-- The `train` configuration with the source defaults
`{lr = 0.01, epochs = 1, batchSize = 16, shuffle = true}`; the `onEpoch`
callback only observes the epoch record and cannot affect the result, so
it is not modelled. -/
structure TrainConfig where
  lr : ℝ := 0.01
  epochs : Nat := 1
  batchSize : Nat := 16
  shuffle : Bool := true

/-- Follows the words of the spec (§7): non-positive epochs, batchSize
or learningRate fail with InvalidConfig. -/
def validateConfig (cfg : TrainConfig) : Except OpError Unit :=
  if cfg.epochs = 0 ∨ cfg.batchSize = 0 ∨ cfg.lr ≤ 0 then .error .InvalidConfig
  else .ok ()

/-- The per-batch mutable state: the running epoch loss and correctness
count plus the zero-initialized gradient accumulators. -/
structure BatchAcc where
  totalLoss : ℝ
  correct : Nat
  accDw : List Matrix
  accDb : List Matrix

/-- The per-sample body of the batch loop: run backward, add the loss,
update the correctness count via the argmax comparison, and add the
sample gradients into the accumulators. -/
def processSample (net : Network) (st : BatchAcc) (s : Sample) : BatchAcc :=
  let r := net.backward s.input s.target
  let pred := net.predict s.input
  let predMax := argmaxOver pred.rows pred
  let targMax := argmaxOver pred.rows s.target
  ⟨st.totalLoss + r.2.2,
   st.correct + (if predMax = targMax then 1 else 0),
   List.zipWith Matrix.add st.accDw r.1,
   List.zipWith Matrix.add st.accDb r.2.1⟩

/-- The epoch-level mutable state threaded through the batch loop. -/
structure EpochState where
  net : Network
  totalLoss : ℝ
  correct : Nat

/-- One batch: zero the accumulators, fold the samples of the batch,
then apply `W -= accDw * (lr / batch.length)` and likewise for biases.
The divisor is the length of the realized batch slice. -/
def runBatch (samples : List Sample) (lr : ℝ) (st : EpochState) (batch : List Nat) :
    EpochState :=
  let acc0 : BatchAcc := ⟨st.totalLoss, st.correct,
    st.net.weights.map (fun w => Matrix.zeros w.rows w.cols),
    st.net.biases.map (fun b => Matrix.zeros b.rows b.cols)⟩
  let acc := batch.foldl (fun a idx => processSample st.net a (samples.getD idx sEmpty)) acc0
  let sc := lr / (batch.length : ℝ)
  ⟨⟨st.net.layerSizes, st.net.hiddenActivation,
    List.zipWith (fun w g => w.sub (g.scale sc)) st.net.weights acc.accDw,
    List.zipWith (fun b g => b.sub (g.scale sc)) st.net.biases acc.accDb⟩,
   acc.totalLoss, acc.correct⟩

/-- Consecutive slices of `1 + k` indices (`k = batchSize - 1`),
mirroring `indices.slice(b, b + batchSize)` with step `batchSize >= 1`;
the last slice may be shorter. -/
def chunk (k : Nat) : List Nat → List (List Nat)
  | [] => []
  | x :: xs => (x :: xs.take k) :: chunk k (xs.drop k)
termination_by l => l.length
decreasing_by simp; omega

/-- The batch partition.  With `batchSize = 0` and a nonempty index list
the JS loop `b += batchSize` never advances: the call diverges, modelled
as `none`.  With an empty index list the loop condition fails at once. -/
def batches (batchSize : Nat) (indices : List Nat) : Option (List (List Nat)) :=
  match batchSize, indices with
  | 0, [] => some []
  | 0, _ :: _ => none
  | k + 1, l => some (chunk k l)

/-- One epoch record `{epoch, loss, accuracy}`. -/
structure EpochStat where
  epoch : Nat
  loss : ℝ
  accuracy : ℝ

/-- One epoch: build the index list (the Fisher-Yates shuffle consumes
`Math.random`; its outcome is abstracted as the oracle `perm`), fold the
batches, then record the averaged loss and accuracy. -/
def runEpoch (samples : List Sample) (cfg : TrainConfig)
    (perm : Nat → List Nat → List Nat) (epoch : Nat) (net : Network) :
    Option (Network × EpochStat) :=
  let n := samples.length
  let indices := if cfg.shuffle then perm epoch (List.range n) else List.range n
  (batches cfg.batchSize indices).map (fun bs =>
    let fin := bs.foldl (runBatch samples cfg.lr) ⟨net, 0, 0⟩
    (fin.net, ⟨epoch, fin.totalLoss / (n : ℝ), (fin.correct : ℝ) / (n : ℝ)⟩))

/-- The epoch loop with the current epoch number and the count of
remaining epochs. -/
def trainGo (samples : List Sample) (cfg : TrainConfig)
    (perm : Nat → List Nat → List Nat) :
    Nat → Nat → Network → Option (List EpochStat × Network)
  | _, 0, net => some ([], net)
  | epoch, r + 1, net =>
      match runEpoch samples cfg perm epoch net with
      | none => none
      | some (net2, stat) =>
          (trainGo samples cfg perm (epoch + 1) r net2).map (fun p => (stat :: p.1, p.2))

/-- `train(samples, config)`: run `epochs` epochs from epoch 0,
returning the history and the final (mutated) network; `none` models the
divergence of the `batchSize = 0` batching loop. -/
def Network.train (net : Network) (samples : List Sample) (cfg : TrainConfig)
    (perm : Nat → List Nat → List Nat) : Option (List EpochStat × Network) :=
  trainGo samples cfg perm 0 cfg.epochs net

/-- Follows the words of the spec (§7): `train` validating its
configuration before running. -/
def trainChecked (net : Network) (samples : List Sample) (cfg : TrainConfig)
    (perm : Nat → List Nat → List Nat) :
    Except OpError (Option (List EpochStat × Network)) :=
  (validateConfig cfg).map (fun _ => net.train samples cfg perm)

/-- The gradients of one sample (spec §4.6 step 3): the `dw` list of a
backward run on sample `idx`. -/
def sampleGradW (net : Network) (samples : List Sample) (idx : Nat) : List Matrix :=
  (net.backward (samples.getD idx sEmpty).input (samples.getD idx sEmpty).target).1

/-- The `db` list of a backward run on sample `idx`. -/
def sampleGradB (net : Network) (samples : List Sample) (idx : Nat) : List Matrix :=
  (net.backward (samples.getD idx sEmpty).input (samples.getD idx sEmpty).target).2.1

/-- The accumulated weight gradients of a batch, as the spec words them:
zero accumulators of the weight shapes plus the per-sample `dw`. -/
def batchGradW (net : Network) (samples : List Sample) (batch : List Nat) : List Matrix :=
  batch.foldl (fun acc idx => List.zipWith Matrix.add acc (sampleGradW net samples idx))
    (net.weights.map (fun w => Matrix.zeros w.rows w.cols))

/-- The accumulated bias gradients of a batch. -/
def batchGradB (net : Network) (samples : List Sample) (batch : List Nat) : List Matrix :=
  batch.foldl (fun acc idx => List.zipWith Matrix.add acc (sampleGradB net samples idx))
    (net.biases.map (fun b => Matrix.zeros b.rows b.cols))

/-! ### Serialization -/

/-- The snapshot record emitted by `save()`; `save` stringifies it and
`load` parses it back, a JSON round trip that is the identity on the
record and is modelled at the record level. -/
structure Snapshot where
  layerSizes : List Nat
  hiddenActivation : String
  weights : List Matrix.Rec
  biases : List Matrix.Rec

/-- `save()`. -/
def Network.save (net : Network) : Snapshot :=
  ⟨net.layerSizes, net.hiddenActivation,
   net.weights.map Matrix.toJSON, net.biases.map Matrix.toJSON⟩

/-- `Network.load(json)`: construct a fresh network (consuming the
random stream `rand` for the discarded Xavier weights), then replace its
weights and biases wholesale by the deserialized records. -/
def Network.load (snap : Snapshot) (rand : Nat → Nat → ℝ) : Network :=
  let net := mkNetwork snap.layerSizes snap.hiddenActivation rand
  ⟨net.layerSizes, net.hiddenActivation,
   snap.weights.map Matrix.fromJSON, snap.biases.map Matrix.fromJSON⟩

/-- Well-formedness maintained by the constructor: every weight and bias
buffer has length `rows*cols`. -/
def Network.WF (net : Network) : Prop :=
  (∀ m ∈ net.weights, m.WF) ∧ (∀ m ∈ net.biases, m.WF)

instance (net : Network) : Decidable net.WF := by
  unfold Network.WF Matrix.WF; infer_instance

/-! ### Stateful method wrappers

The three read-only methods threaded through the `this` state.  Their
bodies contain no assignment to `this.layerSizes`, `this.hiddenActivation`,
`this.weights` or `this.biases` (only `train` and `load` reassign those),
so the translation returns the state unchanged. -/

/-- `forward` with the receiver state threaded. -/
def Network.forwardS (net : Network) (input : Matrix) : Trace × Network :=
  (net.forward input, net)

/-- `predict` with the receiver state threaded. -/
def Network.predictS (net : Network) (input : Matrix) : Matrix × Network :=
  (net.predict input, net)

/-- `backward` with the receiver state threaded. -/
def Network.backwardS (net : Network) (input target : Matrix) :
    (List Matrix × List Matrix × ℝ) × Network :=
  (net.backward input target, net)

/-! ### Concrete fixtures for witnesses and counterexamples -/

/-- A 1x1 weight. -/
def w1 : Matrix := ⟨1, 1, [2]⟩

/-- A 1x1 zero bias. -/
def b1 : Matrix := ⟨1, 1, [0]⟩

/-- A one-transition relu network with explicit parameters. -/
def net1 : Network := ⟨[1, 1], "relu", [w1], [b1]⟩

/-- A 1x1 input column. -/
def x1 : Matrix := ⟨1, 1, [1]⟩

/-- A 1x1 target column. -/
def t1 : Matrix := ⟨1, 1, [1]⟩

/-- The sample pairing `x1` with `t1`. -/
def s1 : Sample := ⟨x1, t1⟩

/-- The identity shuffle oracle. -/
def permId : Nat → List Nat → List Nat := fun _ l => l

/-- A constant random stream for constructors. -/
def rand0 : Nat → Nat → ℝ := fun _ _ => 0

/-- Configuration with `epochs = 0` (spec: must fail with InvalidConfig). -/
def cfgE0 : TrainConfig := ⟨0.5, 0, 16, false⟩

/-- Configuration with `batchSize = 0` (spec: must fail with InvalidConfig). -/
def cfgB0 : TrainConfig := ⟨0.5, 1, 0, false⟩

/-- A valid configuration. -/
def cfg16 : TrainConfig := ⟨0.5, 1, 16, false⟩

/-- A 1x1 matrix, shape-incompatible with `mB`. -/
def mA : Matrix := ⟨1, 1, [5]⟩

/-- A 2x1 matrix, shape-incompatible with `mA`. -/
def mB : Matrix := ⟨2, 1, [1, 2]⟩

/-- A single-entry column vector for the softmax range counterexample. -/
def v0 : Matrix := ⟨1, 1, [0]⟩

/-- A two-entry column vector for the softmax witness. -/
def v2 : Matrix := ⟨2, 1, [0, 1]⟩

/-- A record whose data length 1 disagrees with `rows*cols = 2`. -/
def recBad : Matrix.Rec := ⟨2, 1, [7]⟩

/-! ## Theorems -/

/-! ### Generic list helpers -/

theorem replicate_getD (n k : Nat) : (List.replicate n (0 : ℝ)).getD k 0 = 0 := by
  simp [List.getD_eq_getElem?_getD, List.getElem?_replicate]
  split <;> rfl

theorem zeros_get (r c i j : Nat) : (Matrix.zeros r c).get i j = 0 := by
  unfold Matrix.zeros Matrix.get
  exact replicate_getD _ _

/-! ### C8: matrix product shape and entries -/

/-- C8: for matrices `A (m×n)` and `B (n×p)` the product has `m` rows and
`p` columns and entry `(i, j)` equal to the dot product
`Σ_k A[i,k]·B[k,j]`. -/
theorem C8_mul_spec (A B : Matrix) (hAB : A.cols = B.rows) {i j : Nat}
    (hi : i < A.rows) (hj : j < B.cols) :
    (A.mul B).rows = A.rows ∧ (A.mul B).cols = B.cols ∧
      (A.mul B).get i j = ∑ k in Finset.range A.cols, A.get i k * B.get k j :=
  ⟨rfl, rfl, Matrix.ofFn_get _ _ _ hi hj⟩

/-- Witness for C8 at the concrete compatible pair `mA · mA`. -/
theorem C8_mul_spec_witness :
    (mA.mul mA).rows = mA.rows ∧ (mA.mul mA).cols = mA.cols ∧
      (mA.mul mA).get 0 0 = ∑ k in Finset.range mA.cols, mA.get 0 k * mA.get k 0 :=
  C8_mul_spec mA mA rfl (by decide) (by decide)

/-! ### C2: shape mismatch handling -/

/-- C2 counterexample: the spec demands that `add` on mismatched shapes
fail with AddSubShapeMismatch, but the source performs no shape check of
any kind: on the mismatched pair `mA (1×1)` and `mB (2×1)` it happily
returns the 1×1 result `[6]` computed from the receiver index range,
while the spec-side checked operation reports the mismatch. -/
theorem C2_no_shape_error_cex :
    mA.add mB = ⟨1, 1, [6]⟩ ∧
      specAdd mA mB = Except.error OpError.AddSubShapeMismatch := by
  constructor
  · simp only [Matrix.add, mA, mB]
    norm_num [List.range_succ]
  · simp [specAdd, mA, mB]

/-- C2 amended: no matrix operation validates shapes; each is a total
function that, for every operand pair (compatible or not), returns a
fully allocated result whose shape is fixed by the receiver (and, for
`mul`, the other operand's column count): `rows*cols` entries, never an
error and never a partially written buffer. -/
theorem C2_ops_total_shapes (a b v : Matrix) :
    ((a.add b).rows = a.rows ∧ (a.add b).cols = a.cols ∧
      (a.add b).data.length = a.rows * a.cols) ∧
    ((a.sub b).rows = a.rows ∧ (a.sub b).cols = a.cols ∧
      (a.sub b).data.length = a.rows * a.cols) ∧
    ((a.hadamard b).rows = a.rows ∧ (a.hadamard b).cols = a.cols ∧
      (a.hadamard b).data.length = a.rows * a.cols) ∧
    ((a.mul b).rows = a.rows ∧ (a.mul b).cols = b.cols ∧
      (a.mul b).data.length = a.rows * b.cols) ∧
    ((a.addVec v).rows = a.rows ∧ (a.addVec v).cols = a.cols ∧
      (a.addVec v).data.length = a.rows * a.cols) := by
  refine ⟨⟨rfl, rfl, ?_⟩, ⟨rfl, rfl, ?_⟩, ⟨rfl, rfl, ?_⟩, ⟨rfl, rfl, ?_⟩, ⟨rfl, rfl, ?_⟩⟩ <;>
    simp [Matrix.add, Matrix.sub, Matrix.hadamard, Matrix.mul, Matrix.addVec, Matrix.ofFn]

/-! ### C7: deserialization of malformed records -/

/-- C7 counterexample: the spec demands DeserializationError for a record
with `data.length != rows*cols`, but `fromJSON` silently zero-pads: the
record `{rows 2, cols 1, data [7]}` becomes the 2×1 matrix `[7, 0]`,
while the spec-side checked deserializer reports the error. -/
theorem C7_fromJSON_pads_cex :
    Matrix.fromJSON recBad = ⟨2, 1, [7, 0]⟩ ∧
      fromJSONChecked recBad = Except.error OpError.DeserializationError := by
  constructor
  · rfl
  · simp [fromJSONChecked, recBad]

/-- C7 amended: `fromJSON` never fails; whatever the record, the matrix
data is the record data truncated to `rows*cols` and zero-padded up to
`rows*cols`, so a mismatched length is silently repaired rather than
reported. -/
theorem C7_fromJSON_total (j : Matrix.Rec) :
    (Matrix.fromJSON j).rows = j.rows ∧ (Matrix.fromJSON j).cols = j.cols ∧
    (Matrix.fromJSON j).data =
      j.data.take (j.rows * j.cols) ++
        List.replicate (j.rows * j.cols - j.data.length) 0 ∧
    (Matrix.fromJSON j).data.length = j.rows * j.cols := by
  refine ⟨rfl, rfl, rfl, ?_⟩
  simp [Matrix.fromJSON, Matrix.ofArray]
  omega

/-! ### C9: constructor initialization -/

/-- C9: construction zero-initializes every bias to the
`(layerSizes[i+1], 1)` column of zeros, and only the weights receive the
Xavier-initialized random values. -/
theorem C9_constructor_init (sizes : List Nat) (name : String) (rand : Nat → Nat → ℝ)
    (h2 : 2 ≤ sizes.length) {i : Nat} (hi : i < sizes.length - 1) :
    (mkNetwork sizes name rand).biases.getD i mEmpty =
      Matrix.zeros (sizes.getD (i + 1) 0) 1 ∧
    (∀ j k, ((mkNetwork sizes name rand).biases.getD i mEmpty).get j k = 0) ∧
    (mkNetwork sizes name rand).weights.getD i mEmpty =
      xavierInit (rand i) (sizes.getD (i + 1) 0) (sizes.getD i 0) := by
  unfold mkNetwork
  simp only
  rw [getD_range_map _ _ hi, getD_range_map _ _ hi]
  exact ⟨rfl, fun j k => zeros_get _ _ _ _, rfl⟩

/-- Witness for C9 on the topology `[2, 3]`. -/
theorem C9_constructor_init_witness :
    (mkNetwork [2, 3] "relu" rand0).biases.getD 0 mEmpty =
      Matrix.zeros ([2, 3].getD 1 0) 1 ∧
    (∀ j k, ((mkNetwork [2, 3] "relu" rand0).biases.getD 0 mEmpty).get j k = 0) ∧
    (mkNetwork [2, 3] "relu" rand0).weights.getD 0 mEmpty =
      xavierInit (rand0 0) ([2, 3].getD 1 0) ([2, 3].getD 0 0) :=
  C9_constructor_init [2, 3] "relu" rand0 (by decide) (by decide)

/-! ### C10: read-only operations leave the network unchanged -/

/-- C10: the stateful translations of `forward`, `predict` and
`backward` return the receiver state unchanged: the topology, the
activation identifier and every entry of every weight and bias matrix
are identical before and after the call; only `train` (see
`Network.train`, which returns an updated network) and `load` (which
builds a new one) replace parameters. -/
theorem C10_readonly_frame (net : Network) (input target : Matrix) :
    (net.forwardS input).2 = net ∧
    (net.predictS input).2 = net ∧
    (net.backwardS input target).2 = net ∧
    (net.backwardS input target).2.layerSizes = net.layerSizes ∧
    (net.backwardS input target).2.hiddenActivation = net.hiddenActivation ∧
    (∀ k i j,
      ((net.backwardS input target).2.weights.getD k mEmpty).get i j =
        (net.weights.getD k mEmpty).get i j ∧
      ((net.backwardS input target).2.biases.getD k mEmpty).get i j =
        (net.biases.getD k mEmpty).get i j) :=
  ⟨rfl, rfl, rfl, rfl, rfl, fun _ _ _ => ⟨rfl, rfl⟩⟩

/-! ### C5: softmax guarantees -/

theorem maxStep_eq_max (m x : ℝ) : maxStep m x = max m x := by
  unfold maxStep
  rcases le_or_lt x m with h | h
  · rw [if_neg (not_lt.mpr h), max_eq_left h]
  · rw [if_pos h, max_eq_right h.le]

theorem foldl_maxStep (l : List ℝ) (v : ℝ) : l.foldl maxStep v = l.foldl max v := by
  induction l generalizing v with
  | nil => rfl
  | cons a l ih => simp only [List.foldl_cons, maxStep_eq_max, ih]

theorem le_foldl_max (l : List ℝ) (v : ℝ) : v ≤ l.foldl max v := by
  induction l generalizing v with
  | nil => simp
  | cons a l ih => exact le_trans (le_max_left v a) (ih (max v a))

theorem mem_le_foldl_max (l : List ℝ) (v x : ℝ) (hx : x ∈ l) : x ≤ l.foldl max v := by
  induction l generalizing v with
  | nil => cases hx
  | cons a l ih =>
    rcases List.mem_cons.mp hx with rfl | hx2
    · exact le_trans (le_max_right v x) (le_foldl_max l (max v x))
    · exact ih (max v a) hx2

theorem listMax_ge (l : List ℝ) (x : ℝ) (hx : x ∈ l) : x ≤ listMax l := by
  cases l with
  | nil => cases hx
  | cons v vs =>
    show x ≤ vs.foldl maxStep v
    rw [foldl_maxStep]
    rcases List.mem_cons.mp hx with rfl | hx2
    · exact le_foldl_max vs x
    · exact mem_le_foldl_max vs v x hx2

theorem foldl_add_eq_sum (l : List ℝ) (a : ℝ) :
    l.foldl (fun a e => a + e) a = a + l.sum := by
  induction l generalizing a with
  | nil => simp
  | cons x l ih =>
    simp only [List.foldl_cons, List.sum_cons, ih]
    ring

theorem sum_map_div (l : List ℝ) (c : ℝ) :
    (l.map (fun e => e / c)).sum = l.sum / c := by
  induction l with
  | nil => simp
  | cons x l ih => simp [ih, add_div]

theorem colVals_length (vec : Matrix) : (colVals vec).length = vec.rows := by
  simp [colVals]

theorem colVals_getD (vec : Matrix) {i : Nat} (hi : i < vec.rows) :
    (colVals vec).getD i 0 = vec.data.getD i 0 :=
  getD_range_map _ _ hi

theorem getD_mem {α : Type _} (l : List α) (i : Nat) (d : α) (h : i < l.length) :
    l.getD i d ∈ l := by
  rw [List.getD_eq_getElem l d h]
  exact List.getElem_mem h

/-- The positive denominator of softmax. -/
theorem softmax_den_pos (vec : Matrix) (hr : 0 < vec.rows) :
    0 < ((colVals vec).map (fun x => Real.exp (x - listMax (colVals vec)))).sum := by
  apply List.sum_pos
  · intro x hx
    rcases List.mem_map.mp hx with ⟨y, _, rfl⟩
    exact Real.exp_pos _
  · intro hnil
    have hl := congrArg List.length hnil
    simp [colVals_length] at hl
    omega

/-- Softmax entry `i` in closed form. -/
theorem softmax_get (vec : Matrix) {i : Nat} (hi : i < vec.rows) :
    (softmax vec).get i 0 =
      Real.exp (vec.data.getD i 0 - listMax (colVals vec)) /
        ((colVals vec).map (fun x => Real.exp (x - listMax (colVals vec)))).sum := by
  unfold softmax Matrix.get
  simp only [Nat.mul_one, Nat.add_zero, foldl_add_eq_sum, zero_add]
  rw [colVals, List.map_map, List.map_map, getD_range_map _ _ hi]
  simp [colVals, List.map_map, Function.comp]

/-- C5 counterexample: on the single-entry vector `v0 = [0]` the softmax
output entry is exactly 1, which does not lie strictly inside `(0, 1)`
as the claim demands. -/
theorem C5_softmax_open_interval_cex :
    (softmax v0).get 0 0 = 1 ∧ ¬ ((softmax v0).get 0 0 < 1) := by
  have h : (softmax v0).get 0 0 = 1 := by
    rw [softmax_get v0 (by decide)]
    simp [v0, colVals, listMax, List.range_succ, maxStep]
  exact ⟨h, by rw [h]; exact lt_irrefl 1⟩

/-- C5 amended: for a nonempty column vector the softmax entries sum to
1 (hence within `1e-10`), every entry lies in the half-open interval
`(0, 1]` (the upper bound is attained, e.g. on a single-entry vector),
and the relative order of the inputs is preserved. -/
theorem C5_softmax_guarantees (vec : Matrix) (hc : vec.cols = 1) (hr : 0 < vec.rows) :
    |(softmax vec).data.sum - 1| ≤ 1e-10 ∧
    (∀ i, i < vec.rows → 0 < (softmax vec).get i 0 ∧ (softmax vec).get i 0 ≤ 1) ∧
    (∀ i j, i < vec.rows → j < vec.rows → vec.get j 0 < vec.get i 0 →
      (softmax vec).get j 0 < (softmax vec).get i 0) := by
  have hden := softmax_den_pos vec hr
  set M := listMax (colVals vec) with hM
  set s := ((colVals vec).map (fun x => Real.exp (x - M))).sum with hs
  have hget : ∀ i, i < vec.rows →
      (softmax vec).get i 0 = Real.exp (vec.data.getD i 0 - M) / s :=
    fun i hi => softmax_get vec hi
  have hmem : ∀ i, i < vec.rows →
      Real.exp (vec.data.getD i 0 - M) ∈
        (colVals vec).map (fun x => Real.exp (x - M)) := by
    intro i hi
    apply List.mem_map.mpr
    refine ⟨vec.data.getD i 0, ?_, rfl⟩
    rw [← colVals_getD vec hi]
    exact getD_mem _ _ _ (by rw [colVals_length]; exact hi)
  refine ⟨?_, ?_, ?_⟩
  · have hsum : (softmax vec).data.sum = 1 := by
      unfold softmax
      simp only [foldl_add_eq_sum, zero_add]
      rw [sum_map_div]
      exact div_self (ne_of_gt hden)
    rw [hsum]
    norm_num
  · intro i hi
    rw [hget i hi]
    constructor
    · exact div_pos (Real.exp_pos _) hden
    · rw [div_le_one hden]
      exact List.single_le_sum
        (fun x hx => by
          rcases List.mem_map.mp hx with ⟨y, _, rfl⟩
          exact (Real.exp_pos _).le)
        _ (hmem i hi)
  · intro i j hi hj hlt
    rw [hget i hi, hget j hj]
    have hd : vec.data.getD j 0 - M < vec.data.getD i 0 - M := by
      unfold Matrix.get at hlt
      rw [hc] at hlt
      simp only [Nat.mul_one, Nat.add_zero] at hlt
      linarith
    exact (div_lt_div_iff_of_pos_right hden).mpr (Real.exp_lt_exp.mpr hd)

/-- Witness for C5 on the two-entry vector `v2 = [0, 1]`, exercising the
order-preservation conjunct at the pair `(1, 0)`. -/
theorem C5_softmax_guarantees_witness :
    (0 : Nat) < v2.rows ∧ (softmax v2).get 0 0 < (softmax v2).get 1 0 :=
  ⟨by decide,
   (C5_softmax_guarantees v2 rfl (by decide)).2.2 1 0 (by decide) (by decide)
     (by norm_num [v2, Matrix.get, List.getD])⟩

/-! ### C6: save/load round trip -/

theorem fromJSON_toJSON (m : Matrix) (h : m.WF) : Matrix.fromJSON m.toJSON = m := by
  obtain ⟨r, c, d⟩ := m
  unfold Matrix.WF at h
  simp only at h
  unfold Matrix.fromJSON Matrix.toJSON Matrix.ofArray
  simp only
  congr 1
  rw [← h]
  simp

theorem map_roundtrip (l : List Matrix) (h : ∀ m ∈ l, m.WF) :
    (l.map Matrix.toJSON).map Matrix.fromJSON = l := by
  induction l with
  | nil => rfl
  | cons m l ih =>
    simp only [List.map_cons]
    rw [fromJSON_toJSON m (h m (List.mem_cons_self m l)),
      ih (fun x hx => h x (List.mem_cons_of_mem _ hx))]

/-- C6: `save()` followed by `load()` rebuilds the very same network —
same topology, same activation identifier, same weight and bias values
(the freshly initialized parameters are replaced wholesale) — so
`predict` on the reloaded network agrees with the original within
`1e-10` (here: exactly) on every input and entry. -/
theorem C6_save_load_roundtrip (net : Network) (h : net.WF) (x : Matrix)
    (rand : Nat → Nat → ℝ) :
    Network.load net.save rand = net ∧
    (∀ i j, |((Network.load net.save rand).predict x).get i j -
      (net.predict x).get i j| ≤ 1e-10) := by
  have hload : Network.load net.save rand = net := by
    obtain ⟨ls, ha, ws, bs⟩ := net
    obtain ⟨hw, hb⟩ := h
    unfold Network.load Network.save mkNetwork
    simp only [Network.mk.injEq]
    exact ⟨trivial, trivial, map_roundtrip ws hw, map_roundtrip bs hb⟩
  refine ⟨hload, fun i j => ?_⟩
  rw [hload]
  norm_num

/-- Witness for C6 on the concrete network `net1`. -/
theorem C6_save_load_roundtrip_witness :
    net1.WF ∧ Network.load net1.save rand0 = net1 :=
  ⟨by decide, (C6_save_load_roundtrip net1 (by decide) x1 rand0).1⟩

/-! ### C1: the backward pass computes the spec gradients -/

theorem clone_eq (m : Matrix) : m.clone = m := rfl

theorem backLoop_length (dfn : ℝ → ℝ) (ws zs as : List Matrix) (k : Nat) (delta : Matrix) :
    (backLoop dfn ws zs as k delta).length = k + 1 := by
  induction k generalizing delta with
  | zero => rfl
  | succ n ih => simp [backLoop, ih]

theorem getD_map_fst (l : List (Matrix × Matrix)) {i : Nat} (h : i < l.length) :
    (l.map Prod.fst).getD i mEmpty = (l.getD i (mEmpty, mEmpty)).1 := by
  rw [List.getD_eq_getElem _ _ (by simpa using h), List.getD_eq_getElem _ _ h]
  simp

theorem getD_map_snd (l : List (Matrix × Matrix)) {i : Nat} (h : i < l.length) :
    (l.map Prod.snd).getD i mEmpty = (l.getD i (mEmpty, mEmpty)).2 := by
  rw [List.getD_eq_getElem _ _ (by simpa using h), List.getD_eq_getElem _ _ h]
  simp

/-- The backward loop, started at layer index `k` with delta `delta`,
stores at position `j ≤ k` the pair built from the delta obtained by
descending `k - j` propagation steps. -/
theorem backLoop_getD (dfn : ℝ → ℝ) (ws zs as : List Matrix) :
    ∀ (k : Nat) (delta : Matrix) (j : Nat), j ≤ k →
      (backLoop dfn ws zs as k delta).getD j (mEmpty, mEmpty) =
        ((deltaDown dfn ws zs k delta (k - j)).mul ((as.getD j mEmpty).transpose),
         (deltaDown dfn ws zs k delta (k - j)).clone) := by
  intro k
  induction k with
  | zero =>
    intro delta j hj
    have hj0 : j = 0 := Nat.le_zero.mp hj
    subst hj0
    rfl
  | succ n ih =>
    intro delta j hj
    show ((backLoop dfn ws zs as n (stepDelta dfn ws zs (n + 1) delta) ++
      [(delta.mul ((as.getD (n + 1) mEmpty).transpose), delta.clone)]).getD j _) = _
    rcases Nat.lt_or_ge j (n + 1) with hlt | hge
    · rw [List.getD_append _ _ _ _ (by rw [backLoop_length]; omega)]
      rw [ih (stepDelta dfn ws zs (n + 1) delta) j (by omega)]
      have hs : n + 1 - j = (n - j) + 1 := by omega
      rw [hs]
      simp [deltaDown]
    · have hj1 : j = n + 1 := by omega
      subst hj1
      rw [List.getD_append_right _ _ _ _ (by simp [backLoop_length])]
      rw [backLoop_length]
      simp [deltaDown]

/-- C1: for every network with at least one transition layer, every
input and every target, the backward pass returns, at each layer
`i < L`, exactly `dW_i = δ_i · a_i^T` and `db_i = δ_i`, where `δ_i` is
the spec recurrence (`δ_{L-1} = a_L − target`, then
`δ ← (W^T·δ) ⊙ dfn(z)` per layer), and the returned loss is the
cross-entropy of the forward output against the target. -/
theorem C1_backward_spec (net : Network) (input target : Matrix)
    (hL : 0 < net.weights.length) {i : Nat} (hi : i < net.weights.length) :
    (net.backward input target).1.getD i mEmpty =
      (net.specDelta input target i).mul
        (((net.forward input).as.getD i mEmpty).transpose) ∧
    (net.backward input target).2.1.getD i mEmpty = net.specDelta input target i ∧
    (net.backward input target).2.2 =
      crossEntropyLoss ((net.forward input).as.getD net.weights.length mEmpty) target := by
  unfold Network.backward Network.specDelta
  simp only [if_neg (Nat.pos_iff_ne_zero.mp hL)]
  have hlen : i < (backLoop (lookupAct net.hiddenActivation).dfn net.weights
      (net.forward input).zs (net.forward input).as (net.weights.length - 1)
      (((net.forward input).as.getD net.weights.length mEmpty).sub target)).length := by
    rw [backLoop_length]; omega
  refine ⟨?_, ?_, ?_⟩
  · rw [getD_map_fst _ hlen,
      backLoop_getD _ _ _ _ (net.weights.length - 1) _ i (by omega)]
  · rw [getD_map_snd _ hlen,
      backLoop_getD _ _ _ _ (net.weights.length - 1) _ i (by omega)]
    exact clone_eq _
  · first
    | rfl
    | trivial

/-- Witness for C1 on the concrete one-layer network `net1`. -/
theorem C1_backward_spec_witness :
    (net1.backward x1 t1).1.getD 0 mEmpty =
      (net1.specDelta x1 t1 0).mul
        (((net1.forward x1).as.getD 0 mEmpty).transpose) ∧
    (net1.backward x1 t1).2.1.getD 0 mEmpty = net1.specDelta x1 t1 0 ∧
    (net1.backward x1 t1).2.2 =
      crossEntropyLoss ((net1.forward x1).as.getD net1.weights.length mEmpty) t1 :=
  C1_backward_spec net1 x1 t1 (by decide) (by decide)

/-! ### C3 and C4: the training loop -/

theorem foldl_accDw (net : Network) (samples : List Sample) :
    ∀ (batch : List Nat) (a : BatchAcc),
      (batch.foldl (fun a idx => processSample net a (samples.getD idx sEmpty)) a).accDw =
        batch.foldl
          (fun acc idx => List.zipWith Matrix.add acc (sampleGradW net samples idx))
          a.accDw := by
  intro batch
  induction batch with
  | nil => intro a; rfl
  | cons x xs ih =>
    intro a
    simp only [List.foldl_cons]
    rw [ih]
    rfl

theorem foldl_accDb (net : Network) (samples : List Sample) :
    ∀ (batch : List Nat) (a : BatchAcc),
      (batch.foldl (fun a idx => processSample net a (samples.getD idx sEmpty)) a).accDb =
        batch.foldl
          (fun acc idx => List.zipWith Matrix.add acc (sampleGradB net samples idx))
          a.accDb := by
  intro batch
  induction batch with
  | nil => intro a; rfl
  | cons x xs ih =>
    intro a
    simp only [List.foldl_cons]
    rw [ih]
    rfl

theorem chunk_single (k : Nat) (l : List Nat) (hne : l ≠ []) (hlen : l.length ≤ k + 1) :
    chunk k l = [l] := by
  cases l with
  | nil => exact absurd rfl hne
  | cons x xs =>
    have hx : xs.length ≤ k := by simp at hlen; omega
    have h1 : xs.take k = xs := List.take_of_length_le hx
    have h2 : xs.drop k = [] := List.drop_eq_nil_of_le hx
    simp [chunk, h1, h2]

theorem trainGo_some (samples : List Sample) (cfg : TrainConfig)
    (perm : Nat → List Nat → List Nat) (hbs : 0 < cfg.batchSize) :
    ∀ (r epoch : Nat) (net : Network),
      ∃ p, trainGo samples cfg perm epoch r net = some p ∧ p.1.length = r := by
  intro r
  induction r with
  | zero => intro epoch net; exact ⟨([], net), rfl, rfl⟩
  | succ n ih =>
    intro epoch net
    obtain ⟨k, hk⟩ : ∃ k, cfg.batchSize = k + 1 := ⟨cfg.batchSize - 1, by omega⟩
    cases hopt : runEpoch samples cfg perm epoch net with
    | none =>
      exfalso
      unfold runEpoch at hopt
      rw [hk] at hopt
      simp [batches] at hopt
    | some q =>
      obtain ⟨qn, qs⟩ := q
      obtain ⟨p, hp, hplen⟩ := ih (epoch + 1) qn
      refine ⟨(qs :: p.1, p.2), ?_, by simp [hplen]⟩
      simp [trainGo, hopt, hp]

/-- C3: (a) every batch update subtracts `(lr / |batch|)` times the
accumulated gradients, with the realized batch length as the divisor;
(b) when `batchSize` is at least the sample count, an epoch consists of
exactly one batch holding the whole (possibly shuffled) index list, so
the undersized batch is averaged by its own size; (c) with any positive
`batchSize` the training loop completes, returning one history record
per configured epoch. -/
theorem C3_batch_average_update :
    (∀ (samples : List Sample) (lr : ℝ) (st : EpochState) (batch : List Nat),
      (runBatch samples lr st batch).net.weights =
        List.zipWith (fun w g => w.sub (g.scale (lr / (batch.length : ℝ))))
          st.net.weights (batchGradW st.net samples batch) ∧
      (runBatch samples lr st batch).net.biases =
        List.zipWith (fun b g => b.sub (g.scale (lr / (batch.length : ℝ))))
          st.net.biases (batchGradB st.net samples batch)) ∧
    (∀ (samples : List Sample) (cfg : TrainConfig) (perm : Nat → List Nat → List Nat)
        (epoch : Nat) (net : Network),
      0 < samples.length → samples.length ≤ cfg.batchSize →
      (∀ e l, (perm e l).length = l.length) →
      runEpoch samples cfg perm epoch net =
        some
          (let idx := if cfg.shuffle then perm epoch (List.range samples.length)
            else List.range samples.length
           let fin := runBatch samples cfg.lr ⟨net, 0, 0⟩ idx
           (fin.net, ⟨epoch, fin.totalLoss / (samples.length : ℝ),
             (fin.correct : ℝ) / (samples.length : ℝ)⟩))) ∧
    (∀ (net : Network) (samples : List Sample) (cfg : TrainConfig)
        (perm : Nat → List Nat → List Nat),
      0 < cfg.batchSize →
      ∃ p, net.train samples cfg perm = some p ∧ p.1.length = cfg.epochs) := by
  refine ⟨?_, ?_, ?_⟩
  · intro samples lr st batch
    unfold runBatch batchGradW batchGradB
    constructor
    · simp only
      rw [foldl_accDw]
    · simp only
      rw [foldl_accDb]
  · intro samples cfg perm epoch net hn hbs hperm
    obtain ⟨k, hk⟩ : ∃ k, cfg.batchSize = k + 1 := ⟨cfg.batchSize - 1, by omega⟩
    unfold runEpoch
    have hlen : (if cfg.shuffle then perm epoch (List.range samples.length)
        else List.range samples.length).length = samples.length := by
      cases hsh : cfg.shuffle <;> simp [hsh, hperm]
    have hne2 : (if cfg.shuffle then perm epoch (List.range samples.length)
        else List.range samples.length) ≠ [] := by
      intro h0
      rw [h0] at hlen
      simp at hlen
      omega
    have hb : batches cfg.batchSize
        (if cfg.shuffle then perm epoch (List.range samples.length)
          else List.range samples.length) =
        some [if cfg.shuffle then perm epoch (List.range samples.length)
          else List.range samples.length] := by
      rw [hk]
      have hc := chunk_single k _ hne2 (by rw [hlen]; omega)
      simp [batches, hc]
    simp only [hb]
    rfl
  · intro net samples cfg perm hbs
    exact trainGo_some samples cfg perm hbs cfg.epochs 0 net

/-- Witness for C3: training `net1` on one sample with batch size 16
completes its single epoch. -/
theorem C3_batch_average_update_witness :
    0 < cfg16.batchSize ∧
      ∃ p, net1.train [s1] cfg16 permId = some p ∧ p.1.length = cfg16.epochs :=
  ⟨by decide, C3_batch_average_update.2.2 net1 [s1] cfg16 permId (by decide)⟩

/-- C4 counterexample: the spec demands an InvalidConfig failure for
`epochs = 0` and for `batchSize = 0`, but the source validates nothing:
with `epochs = 0` the call returns a successful empty history with the
parameters untouched (a silent no-op), and with `batchSize = 0` the
batching loop never advances (divergence, modelled `none`); the
spec-side checked entry point reports InvalidConfig in both cases. -/
theorem C4_invalid_config_cex :
    net1.train [s1] cfgE0 permId = some ([], net1) ∧
    net1.train [s1] cfgB0 permId = none ∧
    trainChecked net1 [s1] cfgE0 permId = Except.error OpError.InvalidConfig ∧
    trainChecked net1 [s1] cfgB0 permId = Except.error OpError.InvalidConfig := by
  exact ⟨rfl, rfl, rfl, rfl⟩

/-- C4 amended: `train` performs no configuration validation.
`epochs = 0` silently returns an empty history and the unchanged
network; `batchSize = 0` on a nonempty sample list makes the batching
loop spin forever instead of failing; any positive `batchSize` runs to
completion whatever the learning rate (zero or negative included). -/
theorem C4_no_config_validation :
    (∀ (net : Network) (samples : List Sample) (cfg : TrainConfig)
        (perm : Nat → List Nat → List Nat),
      cfg.epochs = 0 → net.train samples cfg perm = some ([], net)) ∧
    (∀ (net : Network) (samples : List Sample) (cfg : TrainConfig)
        (perm : Nat → List Nat → List Nat),
      cfg.batchSize = 0 → samples ≠ [] → 0 < cfg.epochs →
      (∀ e l, (perm e l).length = l.length) →
      net.train samples cfg perm = none) ∧
    (∀ (net : Network) (samples : List Sample) (cfg : TrainConfig)
        (perm : Nat → List Nat → List Nat),
      0 < cfg.batchSize → (net.train samples cfg perm).isSome = true) := by
  refine ⟨?_, ?_, ?_⟩
  · intro net samples cfg perm h
    unfold Network.train
    rw [h]
    rfl
  · intro net samples cfg perm hb0 hne hep hperm
    obtain ⟨r, hr⟩ : ∃ r, cfg.epochs = r + 1 := ⟨cfg.epochs - 1, by omega⟩
    have hslen : 0 < samples.length := List.length_pos.mpr hne
    have hre : runEpoch samples cfg perm 0 net = none := by
      unfold runEpoch
      have hlen : (if cfg.shuffle then perm 0 (List.range samples.length)
          else List.range samples.length).length = samples.length := by
        cases hsh : cfg.shuffle <;> simp [hsh, hperm]
      rcases hcons : (if cfg.shuffle then perm 0 (List.range samples.length)
          else List.range samples.length) with _ | ⟨x, xs⟩
      · rw [hcons] at hlen
        simp at hlen
        omega
      · simp only [hcons, hb0]
        rfl
    unfold Network.train
    rw [hr]
    simp [trainGo, hre]
  · intro net samples cfg perm hbs
    obtain ⟨p, hp, _⟩ := trainGo_some samples cfg perm hbs cfg.epochs 0 net
    unfold Network.train
    rw [hp]
    rfl

/-- Witness for C4 (the no-validation behavior at a concrete valid and
invalid configuration pair). -/
theorem C4_no_config_validation_witness :
    cfgE0.epochs = 0 ∧ net1.train [s1] cfgE0 permId = some ([], net1) :=
  ⟨rfl, C4_no_config_validation.1 net1 [s1] cfgE0 permId rfl⟩

end NN
